import Mathlib

/-!
Verification of the storj peer-discovery repository: a shallow embedding of
`pkg/kademlia/dht.go`, `pkg/repeat/repeat.go`, `reputation/reputation.go`
and the node-reputation functions of `pkg/overlay/mocks/mock_client.go`,
with theorems settling the specification claims about them.

Go strings are modelled as lists of character codes (`GoStr`), Go `int` and
`int64` as `Int`, byte slices (node IDs) as lists of byte values.
-/

/-- Go strings at the wire boundary, as lists of character codes. -/
abbrev GoStr := List Nat

namespace GoChar

/-- character code of `:` -/
def colon : Nat := 58

/-- character code of `%` -/
def percent : Nat := 37

/-- character code of `[` -/
def lbrack : Nat := 91

/-- character code of `]` -/
def rbrack : Nat := 93

/-- character code of `0` -/
def zero : Nat := 48

end GoChar

/-- Decimal rendering of a natural number, as Go's `strconv.Itoa` /
`fmt.Sprintf("%d", _)` produce it (most significant digit first). -/
def itoa (n : Nat) : GoStr :=
  if n = 0 then [GoChar.zero] else ((Nat.digits 10 n).map (fun d => 48 + d)).reverse

/-- Value of a decimal digit character, if it is one. -/
def digitVal (c : Nat) : Option Nat :=
  if 48 ≤ c ∧ c ≤ 57 then some (c - 48) else none

/-- Decimal parsing of a string of digit characters, as Go's `strconv.Atoi`
does on non-negative inputs: empty or non-digit input is an error. -/
def atoi (s : GoStr) : Option Nat :=
  if s.isEmpty then none
  else s.foldl (fun acc c =>
    match acc, digitVal c with
    | some a, some d => some (a * 10 + d)
    | _, _ => none) (some 0)

theorem itoa_mem_digit {n c : Nat} (hc : c ∈ itoa n) : 48 ≤ c ∧ c ≤ 57 := by
  unfold itoa at hc
  split at hc
  · simp only [List.mem_singleton] at hc
    subst hc
    exact ⟨le_refl _, by norm_num [GoChar.zero]⟩
  · rw [List.mem_reverse, List.mem_map] at hc
    obtain ⟨d, hd, rfl⟩ := hc
    have hlt : d < 10 := Nat.digits_lt_base (by norm_num) hd
    omega

theorem itoa_not_colon {n : Nat} : GoChar.colon ∉ itoa n := by
  intro h
  have := itoa_mem_digit h
  simp [GoChar.colon] at this

theorem itoa_not_percent {n : Nat} : GoChar.percent ∉ itoa n := by
  intro h
  have := itoa_mem_digit h
  simp [GoChar.percent] at this

theorem itoa_ne_nil {n : Nat} : itoa n ≠ [] := by
  unfold itoa
  split
  · simp
  · simp only [ne_eq, List.reverse_eq_nil_iff, List.map_eq_nil_iff]
    rw [Nat.digits_eq_nil_iff_eq_zero]
    assumption

theorem atoi_foldl_digits (l : List Nat) (hl : ∀ d ∈ l, d < 10) (a : Nat) :
    List.foldl (fun acc c =>
      match acc, digitVal c with
      | some a, some d => some (a * 10 + d)
      | _, _ => none) (some a) ((l.map (fun d => 48 + d)).reverse)
    = some (a * 10 ^ l.length + Nat.ofDigits 10 l) := by
  induction l generalizing a with
  | nil => simp [Nat.ofDigits]
  | cons d l ih =>
    have hd : d < 10 := hl d (List.mem_cons_self d l)
    have hl' : ∀ x ∈ l, x < 10 := fun x hx => hl x (List.mem_cons_of_mem d hx)
    simp only [List.map_cons, List.reverse_cons, List.foldl_append, List.foldl_cons,
      List.foldl_nil]
    rw [ih hl' a]
    have hdig : digitVal (48 + d) = some d := by
      unfold digitVal
      rw [if_pos ⟨Nat.le_add_right 48 d, by omega⟩]
      congr 1
      omega
    simp only [hdig, Nat.ofDigits_cons, List.length_cons]
    congr 1
    ring

/-- Decimal round trip: parsing the rendering of a natural number recovers it. -/
theorem atoi_itoa (n : Nat) : atoi (itoa n) = some n := by
  unfold atoi itoa
  by_cases h : n = 0
  · subst h
    simp [GoChar.zero, digitVal]
  · rw [if_neg h]
    have hne : ((Nat.digits 10 n).map (fun d => 48 + d)).reverse ≠ [] := by
      simp only [ne_eq, List.reverse_eq_nil_iff, List.map_eq_nil_iff,
        Nat.digits_eq_nil_iff_eq_zero]
      exact h
    rw [if_neg (by simpa [List.isEmpty_iff] using hne)]
    rw [atoi_foldl_digits _ (fun d hd => Nat.digits_lt_base (by norm_num) hd) 0]
    simp [Nat.ofDigits_digits]

/-- Go's `net.JoinHostPort`: brackets the host when it contains a colon or
a percent sign, then joins host and port with a colon. -/
def joinHostPort (host port : GoStr) : GoStr :=
  if GoChar.colon ∈ host ∨ GoChar.percent ∈ host then
    GoChar.lbrack :: host ++ GoChar.rbrack :: GoChar.colon :: port
  else
    host ++ GoChar.colon :: port

/-- Split a string at its last colon: `some (before, after)` when a colon
occurs, `none` otherwise. -/
def splitLastColon : GoStr → Option (GoStr × GoStr)
  | [] => none
  | c :: rest =>
    match splitLastColon rest with
    | some (h, p) => some (c :: h, p)
    | none => if c = GoChar.colon then some ([], rest) else none

/-- Go's `net.SplitHostPort` on the shapes this code produces: split at the
last colon; a bracketed host `[h]` is unwrapped; an unbracketed host that
still contains a colon is a "too many colons" error; no colon at all is a
"missing port" error. -/
def splitHostPort (s : GoStr) : Option (GoStr × GoStr) :=
  match splitLastColon s with
  | none => none
  | some (host0, port) =>
    match host0 with
    | [] => some ([], port)
    | c :: rest =>
      if c = GoChar.lbrack then
        if rest.getLast? = some GoChar.rbrack then some (rest.dropLast, port) else none
      else
        if GoChar.colon ∈ host0 then none else some (host0, port)

theorem splitLastColon_of_not_mem {s : GoStr} (h : GoChar.colon ∉ s) :
    splitLastColon s = none := by
  induction s with
  | nil => rfl
  | cons c rest ih =>
    have hc : c ≠ GoChar.colon := fun hc => h (hc ▸ List.mem_cons_self c rest)
    have hrest : GoChar.colon ∉ rest := fun hr => h (List.mem_cons_of_mem c hr)
    unfold splitLastColon
    rw [ih hrest]
    simp [hc]

theorem splitLastColon_append {h p : GoStr} (hp : GoChar.colon ∉ p) :
    splitLastColon (h ++ GoChar.colon :: p) = some (h, p) := by
  induction h with
  | nil =>
    simp only [List.nil_append]
    unfold splitLastColon
    rw [splitLastColon_of_not_mem hp]
    simp
  | cons c rest ih =>
    unfold splitLastColon
    simp only [List.cons_append]
    rw [ih]

/-- Split inverts join for a plain (unbracketed) host, for any colon-free
port string. -/
theorem splitHostPort_joinHostPort {host port : GoStr}
    (hh : GoChar.colon ∉ host) (hph : GoChar.percent ∉ host)
    (hb : ∀ rest, host ≠ GoChar.lbrack :: rest)
    (hp : GoChar.colon ∉ port) :
    splitHostPort (joinHostPort host port) = some (host, port) := by
  unfold joinHostPort
  rw [if_neg (by tauto)]
  unfold splitHostPort
  rw [splitLastColon_append hp]
  match hhost : host with
  | [] => rfl
  | c :: rest =>
    have hc : c ≠ GoChar.lbrack := by
      intro hc
      exact hb rest (by rw [hc])
    simp only [hc, if_false]
    rw [if_neg (hhost ▸ hh)]

/-! ## Data model of `protos/overlay` and `bkad` nodes (`pkg/kademlia/dht.go`) -/

/-- `proto.NodeTransport`: the transport enum of the overlay protocol.
`dht.go` only ever uses the TCP value (`defaultTransport`). -/
inductive NodeTransport
  | TCP
deriving DecidableEq, Repr

/-- `proto.NodeAddress`: transport tag plus "host:port" address string. -/
structure NodeAddress where
  transport : NodeTransport
  address : GoStr
deriving DecidableEq, Repr

/-- `proto.Node`: id bytes plus an optional (Go pointer) address. -/
structure ProtoNode where
  Id : GoStr
  address : Option NodeAddress
deriving DecidableEq, Repr

/-- `v.GetAddress().GetAddress()`: the generated getters are nil-safe and
yield the empty string through a nil pointer. -/
def ProtoNode.getAddressStr (p : ProtoNode) : GoStr :=
  match p.address with
  | none => []
  | some a => a.address

/-- `bkad.NetworkNode` as `dht.go` reads it: ID bytes, the rendering of its
IP (`v.IP.String()`), and its port. -/
structure NetworkNode where
  ID : GoStr
  IP : GoStr
  Port : Nat
deriving DecidableEq, Repr

/-- `var defaultTransport = proto.NodeTransport_TCP` -/
def defaultTransport : NodeTransport := .TCP

/-- `convertNetworkNode` of `dht.go`: id from the ID bytes, address joined
with `net.JoinHostPort(v.IP.String(), strconv.Itoa(v.Port))`. -/
def convertNetworkNode (v : NetworkNode) : ProtoNode :=
  { Id := v.ID
    address := some { transport := defaultTransport
                      address := joinHostPort v.IP (itoa v.Port) } }

/-- `convertNetworkNodes` of `dht.go`: elementwise conversion. -/
def convertNetworkNodes (n : List NetworkNode) : List ProtoNode :=
  n.map convertNetworkNode

/-- Modelled from the spec: `bkad.NewNetworkNode` lives in the third-party
kademlia library, outside this repository's sources. Per the spec's boundary
conversion (§6, §9 design note) it builds an internal contact from a host
string and a decimal port string; IP parsing is modelled as keeping the
well-formed host string. -/
def newNetworkNode (host port : GoStr) : NetworkNode :=
  { ID := [], IP := host, Port := (atoi port).getD 0 }

/-- `convertProtoNode` of `dht.go`: `net.SplitHostPort` on the address
string (error propagated), then `bkad.NewNetworkNode(host, port)` with the
ID bytes copied over. -/
def convertProtoNode (v : ProtoNode) : Except String NetworkNode :=
  match splitHostPort v.getAddressStr with
  | none => .error "missing port in address"
  | some (host, port) => .ok { newNetworkNode host port with ID := v.Id }

/-- `convertProtoNodes` of `dht.go`: converts in input order, returning the
first conversion error if any. -/
def convertProtoNodes : List ProtoNode → Except String (List NetworkNode)
  | [] => .ok []
  | v :: rest =>
    match convertProtoNode v with
    | .error e => .error e
    | .ok node =>
      match convertProtoNodes rest with
      | .error e => .error e
      | .ok tail => .ok (node :: tail)

/-- Errors of `Kademlia.FindNode`: a propagated search error, or
`NodeErr.New("node not found")`. -/
inductive FindNodeError
  | dhtError (e : String)
  | notFound
deriving DecidableEq, Repr

/-- The `for _, v := range nodes` loop of `Kademlia.FindNode`: the first
node whose ID bytes equal the target is returned as a proto node with the
TCP transport and `fmt.Sprintf("%s:%d", v.IP.String(), v.Port)` address;
otherwise `NodeErr.New("node not found")`. -/
def findNodeLoop (ID : GoStr) : List NetworkNode → Except FindNodeError ProtoNode
  | [] => .error .notFound
  | v :: rest =>
    if v.ID = ID then
      .ok { Id := v.ID
            address := some { transport := defaultTransport
                              address := v.IP ++ GoChar.colon :: itoa v.Port } }
    else findNodeLoop ID rest

/-- `Kademlia.FindNode` of `dht.go`, with the outcome of the network search
`k.dht.FindNode([]byte(ID))` passed in as a parameter. -/
def findNode (searchResult : Except String (List NetworkNode)) (ID : GoStr) :
    Except FindNodeError ProtoNode :=
  match searchResult with
  | .error e => .error (.dhtError e)
  | .ok nodes => findNodeLoop ID nodes

theorem findNodeLoop_ok_shape {ID : GoStr} {nodes : List NetworkNode} {n : ProtoNode}
    (h : findNodeLoop ID nodes = .ok n) :
    n.Id = ID ∧ ∃ v ∈ nodes, v.ID = ID ∧
      n.address = some { transport := defaultTransport
                         address := v.IP ++ GoChar.colon :: itoa v.Port } := by
  induction nodes with
  | nil => simp [findNodeLoop] at h
  | cons v rest ih =>
    unfold findNodeLoop at h
    by_cases hv : v.ID = ID
    · rw [if_pos hv] at h
      cases h
      exact ⟨hv, v, List.mem_cons_self v rest, hv, rfl⟩
    · rw [if_neg hv] at h
      obtain ⟨hid, w, hw, hwid, haddr⟩ := ih h
      exact ⟨hid, w, List.mem_cons_of_mem v hw, hwid, haddr⟩

theorem findNodeLoop_not_found {ID : GoStr} {nodes : List NetworkNode}
    (h : ∀ v ∈ nodes, v.ID ≠ ID) :
    findNodeLoop ID nodes = .error .notFound := by
  induction nodes with
  | nil => rfl
  | cons v rest ih =>
    unfold findNodeLoop
    rw [if_neg (h v (List.mem_cons_self v rest))]
    exact ih fun w hw => h w (List.mem_cons_of_mem v hw)

theorem findNodeLoop_ok_of_mem {ID : GoStr} {nodes : List NetworkNode}
    (h : ∃ v ∈ nodes, v.ID = ID) :
    ∃ n, findNodeLoop ID nodes = .ok n := by
  induction nodes with
  | nil => simp at h
  | cons v rest ih =>
    unfold findNodeLoop
    by_cases hv : v.ID = ID
    · exact ⟨_, by rw [if_pos hv]⟩
    · rw [if_neg hv]
      obtain ⟨w, hw, hwid⟩ := h
      rcases List.mem_cons.mp hw with rfl | hw'
      · exact absurd hwid hv
      · exact ih ⟨w, hw', hwid⟩

/-- C1: `Kademlia.FindNode` returns a node exactly when the network search
reports one with the target ID; a returned node carries the target ID and a
reported node's address, and otherwise the result is the node-not-found
error (or the propagated search error when the search itself failed). -/
theorem findNode_matches_target_or_not_found
    (res : Except String (List NetworkNode)) (ID : GoStr) :
    (∀ e, res = .error e → findNode res ID = .error (.dhtError e)) ∧
    (∀ nodes, res = .ok nodes →
      (((∃ v ∈ nodes, v.ID = ID) ↔ ∃ n, findNode res ID = .ok n) ∧
       (∀ n, findNode res ID = .ok n → n.Id = ID ∧ ∃ v ∈ nodes, v.ID = ID ∧
          n.address = some { transport := defaultTransport
                             address := v.IP ++ GoChar.colon :: itoa v.Port }) ∧
       ((∀ v ∈ nodes, v.ID ≠ ID) → findNode res ID = .error .notFound))) := by
  constructor
  · rintro e rfl
    rfl
  · rintro nodes rfl
    refine ⟨⟨fun h => findNodeLoop_ok_of_mem h, ?_⟩, fun n h => findNodeLoop_ok_shape h,
      fun h => findNodeLoop_not_found h⟩
    rintro ⟨n, hn⟩
    exact (findNodeLoop_ok_shape hn).2.imp fun v ⟨hv, hvid, _⟩ => ⟨hv, hvid⟩

/-- Witness for C1 at concrete inputs: a search result holding a single node
with ID `[1]`; looking up `[2]` yields the not-found error, and looking up
`[1]` yields a node whose Id is `[1]`. -/
theorem findNode_matches_target_or_not_found_witness :
    findNode (.ok [{ ID := [1], IP := [104], Port := 7 }]) [2] = .error .notFound ∧
    ∀ n, findNode (.ok [{ ID := [1], IP := [104], Port := 7 }]) [1] = .ok n → n.Id = [1] :=
  ⟨((findNode_matches_target_or_not_found
        (.ok [{ ID := [1], IP := [104], Port := 7 }]) [2]).2 _ rfl).2.2 (by decide),
   fun n h =>
    (((findNode_matches_target_or_not_found
        (.ok [{ ID := [1], IP := [104], Port := 7 }]) [1]).2 _ rfl).2.1 n h).1⟩

/-- C5: every proto node produced from a network node — by
`convertNetworkNode` and by the match branch of `FindNode` — carries the
node's ID bytes, the TCP transport, and the "host:port" join of its IP and
port (for `convertNetworkNode` via `net.JoinHostPort`, which reduces to the
plain `ip ++ ":" ++ port` string whenever the rendered IP has no colon or
percent sign). -/
theorem node_wire_shape (v : NetworkNode) (ID : GoStr) (nodes : List NetworkNode) :
    ((convertNetworkNode v).Id = v.ID ∧
     ∃ a, (convertNetworkNode v).address = some a ∧
       a.transport = NodeTransport.TCP ∧
       a.address = joinHostPort v.IP (itoa v.Port) ∧
       (GoChar.colon ∉ v.IP → GoChar.percent ∉ v.IP →
         a.address = v.IP ++ GoChar.colon :: itoa v.Port)) ∧
    (∀ n, findNodeLoop ID nodes = .ok n → n.Id = ID ∧ ∃ w ∈ nodes, w.ID = ID ∧
      n.address = some { transport := NodeTransport.TCP
                         address := w.IP ++ GoChar.colon :: itoa w.Port }) := by
  refine ⟨⟨rfl, _, rfl, rfl, rfl, fun hc hp => ?_⟩, fun n h => findNodeLoop_ok_shape h⟩
  unfold joinHostPort
  rw [if_neg (by tauto)]

/-- Witness for C5 at a concrete network node with a plain (colon- and
percent-free) IP rendering. -/
theorem node_wire_shape_witness :
    (convertNetworkNode { ID := [1], IP := [104], Port := 7 }).Id = [1] ∧
    ∃ a, (convertNetworkNode { ID := [1], IP := [104], Port := 7 }).address = some a ∧
      a.transport = NodeTransport.TCP ∧
      a.address = [104] ++ GoChar.colon :: itoa 7 := by
  obtain ⟨⟨hid, a, ha, ht, _, hplain⟩, _⟩ :=
    node_wire_shape { ID := [1], IP := [104], Port := 7 } [] []
  exact ⟨hid, a, ha, ht, hplain (by decide) (by decide)⟩

/-- C6: boundary conversion round-trips — for a network node whose rendered
IP is well formed (no colon or percent, not bracket-shaped),
`convertProtoNode` after `convertNetworkNode` succeeds and recovers the
same ID, host and port; and `convertProtoNode` is total on proto nodes,
succeeding exactly when the address string parses as host:port. -/
theorem convertProtoNode_convertNetworkNode (v : NetworkNode)
    (hh : GoChar.colon ∉ v.IP) (hph : GoChar.percent ∉ v.IP)
    (hb : v.IP.head? ≠ some GoChar.lbrack) :
    convertProtoNode (convertNetworkNode v) = .ok v ∧
    ∀ p : ProtoNode, (∃ w, convertProtoNode p = .ok w) ↔
      (splitHostPort p.getAddressStr).isSome := by
  constructor
  · have hb' : ∀ rest, v.IP ≠ GoChar.lbrack :: rest := by
      intro rest h
      exact hb (by rw [h]; rfl)
    unfold convertProtoNode
    have : (convertNetworkNode v).getAddressStr = joinHostPort v.IP (itoa v.Port) := rfl
    rw [this, splitHostPort_joinHostPort hh hph hb' itoa_not_colon]
    simp only [newNetworkNode, atoi_itoa, Option.getD_some]
    rfl
  · intro p
    unfold convertProtoNode
    cases splitHostPort p.getAddressStr with
    | none => simp
    | some hp => simp

/-- Witness for C6 at a concrete network node. -/
theorem convertProtoNode_convertNetworkNode_witness :
    convertProtoNode (convertNetworkNode { ID := [1], IP := [104], Port := 7 })
      = .ok { ID := [1], IP := [104], Port := 7 } :=
  (convertProtoNode_convertNetworkNode { ID := [1], IP := [104], Port := 7 }
    (by decide) (by decide) (by decide)).1

/-- Modelled from the spec: the overlay `BulkLookup` implementation is not
among the sources (only its mock and the node-list converters are); per §6
it is order-preserving with exactly one entry (node or error) per input, so
it is the elementwise application of the single lookup. -/
def bulkLookup (lookup : GoStr → Except String ProtoNode) (ids : List GoStr) :
    List (Except String ProtoNode) :=
  ids.map lookup

theorem convertProtoNodes_ok {pn : List ProtoNode} {l : List NetworkNode}
    (h : convertProtoNodes pn = .ok l) :
    l.length = pn.length ∧
    ∀ (i : Nat) (v : ProtoNode), pn[i]? = some v → ∃ w, convertProtoNode v = .ok w ∧ l[i]? = some w := by
  induction pn generalizing l with
  | nil =>
    cases h
    exact ⟨rfl, fun i v hv => by simp at hv⟩
  | cons v rest ih =>
    unfold convertProtoNodes at h
    cases hv : convertProtoNode v with
    | error e => rw [hv] at h; cases h
    | ok node =>
      rw [hv] at h
      cases hrest : convertProtoNodes rest with
      | error e => rw [hrest] at h; cases h
      | ok tail =>
        rw [hrest] at h
        cases h
        obtain ⟨hlen, hidx⟩ := ih hrest
        refine ⟨by simp [hlen], fun i w hw => ?_⟩
        match i with
        | 0 =>
          simp only [List.getElem?_cons_zero, Option.some_inj] at hw
          subst hw
          exact ⟨node, hv, by simp⟩
        | i + 1 =>
          simp only [List.getElem?_cons_succ] at hw ⊢
          exact hidx i w hw

/-- C4: `BulkLookup` is order-preserving with exactly one entry per input,
and the node-list converters are index-wise: `convertNetworkNodes` maps
element `i` to the conversion of input element `i`, and a successful
`convertProtoNodes` yields a list of the input's length whose element `i`
is the successful conversion of input element `i`. -/
theorem bulkLookup_and_converters_indexwise
    (lookup : GoStr → Except String ProtoNode) (ids : List GoStr)
    (n : List NetworkNode) (pn : List ProtoNode) :
    ((bulkLookup lookup ids).length = ids.length ∧
     ∀ (i : Nat), (bulkLookup lookup ids)[i]? = (ids[i]?).map lookup) ∧
    ((convertNetworkNodes n).length = n.length ∧
     ∀ (i : Nat), (convertNetworkNodes n)[i]? = (n[i]?).map convertNetworkNode) ∧
    (∀ l, convertProtoNodes pn = .ok l → l.length = pn.length ∧
      ∀ (i : Nat) (v : ProtoNode), pn[i]? = some v → ∃ w, convertProtoNode v = .ok w ∧ l[i]? = some w) := by
  refine ⟨⟨List.length_map _ _, fun i => List.getElem?_map ..⟩,
    ⟨List.length_map _ _, fun i => List.getElem?_map ..⟩,
    fun l h => convertProtoNodes_ok h⟩

/-- Witness for C4 at concrete inputs: a two-element bulk lookup keeps the
input length, and converting a singleton proto-node list succeeds
index-wise. -/
theorem bulkLookup_and_converters_indexwise_witness :
    (bulkLookup (fun id => Except.ok { Id := id, address := none }) [[1], [2]]).length
        = ([[1], [2]] : List GoStr).length ∧
    ∃ w, convertProtoNode
        { Id := [1], address := some { transport := NodeTransport.TCP
                                       address := [104, 58, 55] } } = .ok w ∧
      [({ ID := [1], IP := [104], Port := 7 } : NetworkNode)][0]? = some w := by
  refine ⟨(bulkLookup_and_converters_indexwise
      (fun id => Except.ok { Id := id, address := none }) [[1], [2]] [] []).1.1, ?_⟩
  have h := ((bulkLookup_and_converters_indexwise
      (fun id => Except.ok { Id := id, address := none }) [[1], [2]] []
      [{ Id := [1], address := some { transport := NodeTransport.TCP
                                      address := [104, 58, 55] } }]).2.2
    [{ ID := [1], IP := [104], Port := 7 }] rfl).2 0 _ rfl
  exact h

/-- Errors of `Kademlia.Ping`: a conversion error, a propagated transport
error, or `NodeErr.New("node unavailable")`. -/
inductive PingError
  | convertError (e : String)
  | dhtError (e : String)
  | nodeUnavailable
deriving DecidableEq, Repr

/-- `Kademlia.Ping` of `dht.go`, with the outcome of `k.dht.Ping(n)` passed
in as a parameter: conversion errors and transport errors propagate with an
empty node, an unreachable contact yields `NodeErr.New("node unavailable")`,
and a responding contact returns the argument node unchanged. -/
def ping (pingResult : Except String Bool) (node : ProtoNode) :
    Except PingError ProtoNode :=
  match convertProtoNode node with
  | .error e => .error (.convertError e)
  | .ok _ =>
    match pingResult with
    | .error e => .error (.dhtError e)
    | .ok ok => if ok then .ok node else .error .nodeUnavailable

/-- Modelled from the spec: the contact's consecutive-failure bookkeeping
lives behind the third-party DHT library, outside these sources. A tracked
contact is its consecutive-failure count plus its routing-table membership. -/
structure ContactState where
  failures : Nat
  inTable : Bool
deriving DecidableEq, Repr

/-- Modelled from the spec: one Ping outcome applied to the tracked contact
(§4.2) — a response resets the consecutive-failure count; a failure
increments it, and the contact is evicted from the routing table once the
count reaches the configured threshold. -/
def pingUpdate (threshold : Nat) (cs : ContactState) (responded : Bool) :
    ContactState :=
  if responded then { failures := 0, inTable := cs.inTable }
  else { failures := cs.failures + 1
         inTable := cs.inTable && decide (cs.failures + 1 < threshold) }

/-- C3: `Ping` on a convertible contact returns the same node and no error
when the contact responds, and an error with no node when it does not (or
when the transport fails); each failure increments the contact's
consecutive-failure count, and the contact stays in the routing table
exactly until that count reaches the configured threshold. -/
theorem ping_liveness_probe (node : ProtoNode) (threshold : Nat) (cs : ContactState) :
    (∀ nn, convertProtoNode node = .ok nn →
      (ping (.ok true) node = .ok node ∧
       ping (.ok false) node = .error PingError.nodeUnavailable ∧
       ∀ e, ping (.error e) node = .error (.dhtError e))) ∧
    ((pingUpdate threshold cs false).failures = cs.failures + 1 ∧
     ((pingUpdate threshold cs false).inTable = true ↔
        cs.inTable = true ∧ cs.failures + 1 < threshold) ∧
     (threshold ≤ cs.failures + 1 → (pingUpdate threshold cs false).inTable = false) ∧
     pingUpdate threshold cs true = { failures := 0, inTable := cs.inTable }) := by
  refine ⟨fun nn hnn => ?_, ?_, ?_, fun h => ?_, rfl⟩
  · unfold ping
    rw [hnn]
    exact ⟨rfl, rfl, fun e => rfl⟩
  · rfl
  · simp [pingUpdate]
  · simp only [pingUpdate, if_neg Bool.false_ne_true, Bool.and_eq_false_iff]
    right
    simpa using h

/-- Witness for C3 at a concrete convertible node and contact state: the
node round-trips through Ping on response, fails on no response, and a
contact one failure short of threshold 3 is evicted by the next failure. -/
theorem ping_liveness_probe_witness :
    ping (.ok true) { Id := [1], address := some { transport := NodeTransport.TCP
                                                   address := [104, 58, 55] } }
      = .ok { Id := [1], address := some { transport := NodeTransport.TCP
                                           address := [104, 58, 55] } } ∧
    ping (.ok false) { Id := [1], address := some { transport := NodeTransport.TCP
                                                    address := [104, 58, 55] } }
      = .error PingError.nodeUnavailable ∧
    (pingUpdate 3 { failures := 2, inTable := true } false).failures = 3 ∧
    (pingUpdate 3 { failures := 2, inTable := true } false).inTable = false := by
  obtain ⟨hconv, hfail, _, hevict, _⟩ :=
    ping_liveness_probe { Id := [1], address := some { transport := NodeTransport.TCP
                                                       address := [104, 58, 55] } }
      3 { failures := 2, inTable := true }
  obtain ⟨hok, hunavail, _⟩ := hconv { ID := [1], IP := [104], Port := 7 } rfl
  exact ⟨hok, hunavail, hfail, hevict (by decide)⟩

/-- Modelled from the spec: `Kademlia.Bootstrap` delegates wholly to the
third-party DHT library, outside these sources. Per §4.2 and §8, bootstrap
runs the seed-driven lookup: it fails with `BootstrapFailed` exactly when no
seed contact is reachable (an empty seed list immediately), leaving the
routing table empty; otherwise the reachable seeds populate the table. -/
def bootstrap (reachable : ProtoNode → Bool) (seeds : List ProtoNode) :
    Option String × List ProtoNode :=
  let alive := seeds.filter reachable
  if alive.isEmpty then (some "BootstrapFailed", []) else (none, alive)

/-- C2: `Bootstrap` on an empty seed list fails immediately with
`BootstrapFailed` and leaves the routing table empty; in general it fails
with `BootstrapFailed` exactly when every seed contact is unreachable, and
whenever it fails the routing table is left empty. -/
theorem bootstrap_failed_iff_no_seed_reachable (reachable : ProtoNode → Bool)
    (seeds : List ProtoNode) :
    bootstrap reachable [] = (some "BootstrapFailed", []) ∧
    ((bootstrap reachable seeds).1 = some "BootstrapFailed" ↔
      ∀ s ∈ seeds, reachable s = false) ∧
    ((bootstrap reachable seeds).1 = some "BootstrapFailed" →
      (bootstrap reachable seeds).2 = []) := by
  refine ⟨rfl, ?_, ?_⟩ <;> unfold bootstrap
  · by_cases h : (seeds.filter reachable).isEmpty
    · rw [if_pos h]
      simp only [true_iff, eq_self_iff_true]
      intro s hs
      rw [List.isEmpty_iff, List.filter_eq_nil_iff] at h
      simpa using h s hs
    · rw [if_neg h]
      simp only [List.isEmpty_iff, List.filter_eq_nil_iff] at h
      constructor
      · intro hcontra
        cases hcontra
      · intro hall
        exact absurd (fun s hs hr => by rw [hall s hs] at hr; cases hr) h
  · by_cases h : (seeds.filter reachable).isEmpty
    · rw [if_pos h]
      intro _
      rfl
    · rw [if_neg h]
      intro hcontra
      cases hcontra

/-- Witness for C2: with an all-unreachable transport, an empty seed list
fails immediately with an empty table, and a singleton seed list also fails. -/
theorem bootstrap_failed_iff_no_seed_reachable_witness :
    bootstrap (fun _ => false) [] = (some "BootstrapFailed", []) ∧
    (bootstrap (fun _ => false) [{ Id := [1], address := none }]).1
      = some "BootstrapFailed" :=
  ⟨(bootstrap_failed_iff_no_seed_reachable (fun _ => false) []).1,
   (bootstrap_failed_iff_no_seed_reachable (fun _ => false)
      [{ Id := [1], address := none }]).2.1.mpr (fun _ _ => rfl)⟩

/-! ## The repeating-job scheduler (`pkg/repeat/repeat.go`) -/

/-- The `Repeater` interface of `pkg/repeat`: `Name()`, `State()` and the
stateful `Repeat()` call, modelled over an explicit state type — one call
maps the current state to the next state, the repeat-again flag and an
optional error. -/
structure Repeater (σ : Type) where
  name : String
  stateStr : σ → String
  step : σ → σ × Bool × Option String

/-- A job in flight: a `Repeater` together with its current state. -/
structure RJob (σ : Type) where
  rep : Repeater σ
  st : σ

/-- The error entry `fmt.Sprintf("error at index %v for job %v with state %v
err %v", i, job.Name(), job.State(), err)` appended by `Repeat`. -/
def formatErr (i : Nat) (name state err : String) : String :=
  "error at index " ++ toString i ++ " for job " ++ name ++
    " with state " ++ state ++ " err " ++ err

/-- The `for i, job := range jobs` body of `Repeat`: invokes every job once
in list order starting at index `i`, returning the jobs kept for the next
round (those whose call returned `true`, with their new states, in order)
and the error entries appended this round (one per failing call, in order).
`State()` is read after the call, so the entry shows the new state. -/
def roundAux {σ : Type} (i : Nat) : List (RJob σ) → List (RJob σ) × List String
  | [] => ([], [])
  | j :: rest =>
    let out := j.rep.step j.st
    let tail := roundAux (i + 1) rest
    ((if out.2.1 then [{ rep := j.rep, st := out.1 }] else []) ++ tail.1,
     (match out.2.2 with
      | some err => [formatErr i j.rep.name (j.rep.stateStr out.1) err]
      | none => []) ++ tail.2)

/-- `Repeat` of `pkg/repeat/repeat.go`, with explicit recursion fuel since
the Go original is an unboundedly recursive loop: `none` means the
computation did not finish within the given fuel. An empty job list returns
the accumulated errors; otherwise one round runs and `Repeat` recurses on
the kept jobs and extended errors. -/
def repeatF {σ : Type} : Nat → List (RJob σ) → List String → Option (List String)
  | 0, _, _ => none
  | n + 1, jobs, errors =>
    if jobs.isEmpty then some errors
    else
      let r := roundAux 0 jobs
      repeatF n r.1 (errors ++ r.2)

/-- The state of a job after `n` calls to `Repeat()`. -/
def jobIter {σ : Type} (r : Repeater σ) : σ → Nat → σ
  | s, 0 => s
  | s, n + 1 => jobIter r (r.step s).1 n

/-- A job eventually stops: some call to `Repeat()` returns `false`. -/
def Stops {σ : Type} (j : RJob σ) : Prop :=
  ∃ n, (j.rep.step (jobIter j.rep j.st n)).2.1 = false

/-- A job stops within its first `n + 1` calls. -/
def StopsWithin {σ : Type} (j : RJob σ) (n : Nat) : Prop :=
  ∃ k ≤ n, (j.rep.step (jobIter j.rep j.st k)).2.1 = false

theorem mem_roundAux_fst {σ : Type} {i : Nat} {jobs : List (RJob σ)} {j' : RJob σ} :
    j' ∈ (roundAux i jobs).1 ↔
      ∃ j ∈ jobs, (j.rep.step j.st).2.1 = true ∧
        j' = { rep := j.rep, st := (j.rep.step j.st).1 } := by
  induction jobs generalizing i with
  | nil => simp [roundAux]
  | cons j rest ih =>
    unfold roundAux
    simp only [List.mem_append, ih, List.mem_cons]
    constructor
    · rintro (hin | ⟨w, hw, hstep, rfl⟩)
      · by_cases hs : (j.rep.step j.st).2.1 = true
        · rw [if_pos hs] at hin
          simp only [List.mem_singleton] at hin
          exact ⟨j, Or.inl rfl, hs, hin⟩
        · rw [if_neg hs] at hin
          simp at hin
      · exact ⟨w, Or.inr hw, hstep, rfl⟩
    · rintro ⟨w, hw | hw, hstep, rfl⟩
      · subst hw
        rw [if_pos hstep]
        exact Or.inl (List.mem_singleton.mpr rfl)
      · exact Or.inr ⟨w, hw, hstep, rfl⟩

theorem stopsWithin_mono {σ : Type} {j : RJob σ} {n m : Nat}
    (h : StopsWithin j n) (hnm : n ≤ m) : StopsWithin j m :=
  h.imp fun _ ⟨hk, hf⟩ => ⟨hk.trans hnm, hf⟩

theorem stopsWithin_step {σ : Type} {j : RJob σ} {n : Nat}
    (htrue : (j.rep.step j.st).2.1 = true) (h : StopsWithin j (n + 1)) :
    StopsWithin { rep := j.rep, st := (j.rep.step j.st).1 } n := by
  obtain ⟨k, hk, hf⟩ := h
  match k with
  | 0 =>
    rw [show jobIter j.rep j.st 0 = j.st from rfl] at hf
    rw [htrue] at hf
    cases hf
  | k + 1 =>
    exact ⟨k, by omega, hf⟩

theorem repeatF_of_stopsWithin {σ : Type} :
    ∀ (n : Nat) (jobs : List (RJob σ)) (errors : List String),
      (∀ j ∈ jobs, StopsWithin j n) → (repeatF (n + 2) jobs errors).isSome := by
  intro n
  induction n with
  | zero =>
    intro jobs errors h
    unfold repeatF
    by_cases hje : jobs.isEmpty
    · rw [if_pos hje]
      rfl
    · rw [if_neg hje]
      have hkept : (roundAux 0 jobs).1 = [] := by
        rw [List.eq_nil_iff_forall_not_mem]
        intro j' hj'
        obtain ⟨j, hj, hstep, rfl⟩ := mem_roundAux_fst.mp hj'
        obtain ⟨k, hk, hf⟩ := h j hj
        interval_cases k
        rw [show jobIter j.rep j.st 0 = j.st from rfl] at hf
        rw [hstep] at hf
        cases hf
      show (repeatF 1 (roundAux 0 jobs).1 (errors ++ (roundAux 0 jobs).2)).isSome = true
      rw [hkept]
      rfl
  | succ n ih =>
    intro jobs errors h
    unfold repeatF
    by_cases hje : jobs.isEmpty
    · rw [if_pos hje]
      rfl
    · rw [if_neg hje]
      exact ih (roundAux 0 jobs).1 (errors ++ (roundAux 0 jobs).2) fun j' hj' => by
        obtain ⟨j, hj, hstep, rfl⟩ := mem_roundAux_fst.mp hj'
        exact stopsWithin_step hstep (h j hj)

theorem repeatF_none_of_not_stops {σ : Type} :
    ∀ (n : Nat) (jobs : List (RJob σ)) (errors : List String) (j : RJob σ),
      j ∈ jobs → ¬Stops j → repeatF n jobs errors = none := by
  intro n
  induction n with
  | zero => intro jobs errors j _ _; rfl
  | succ n ih =>
    intro jobs errors j hj hns
    unfold repeatF
    rw [if_neg (by rw [List.isEmpty_iff]; exact List.ne_nil_of_mem hj)]
    have hstep : (j.rep.step j.st).2.1 = true := by
      by_contra hfalse
      exact hns ⟨0, by simpa using hfalse⟩
    refine ih _ _ { rep := j.rep, st := (j.rep.step j.st).1 }
      (mem_roundAux_fst.mpr ⟨j, hj, hstep, rfl⟩) ?_
    rintro ⟨k, hk⟩
    exact hns ⟨k + 1, hk⟩

theorem stopsWithin_bound {σ : Type} (jobs : List (RJob σ))
    (h : ∀ j ∈ jobs, Stops j) : ∃ N, ∀ j ∈ jobs, StopsWithin j N := by
  induction jobs with
  | nil => exact ⟨0, by simp⟩
  | cons j rest ih =>
    obtain ⟨n0, hn0⟩ := h j (List.mem_cons_self j rest)
    obtain ⟨N, hN⟩ := ih fun w hw => h w (List.mem_cons_of_mem j hw)
    refine ⟨max n0 N, fun w hw => ?_⟩
    rcases List.mem_cons.mp hw with rfl | hw'
    · exact ⟨n0, le_max_left n0 N, hn0⟩
    · exact stopsWithin_mono (hN w hw') (le_max_right n0 N)

/-- C7: `Repeat` has no round bound — with recursion fuel made explicit,
the loop finishes (for some fuel) exactly when every job in the list
eventually returns `false` from its `Repeat()` call; on the empty job list
it returns the accumulated errors at once, and a job whose `Repeat()`
always returns `true` makes the recursion run forever (no fuel suffices). -/
theorem repeat_terminates_iff_every_job_stops {σ : Type}
    (jobs : List (RJob σ)) (errors : List String) :
    ((∃ n, (repeatF n jobs errors).isSome) ↔ ∀ j ∈ jobs, Stops j) ∧
    (∀ n, repeatF (n + 1) ([] : List (RJob σ)) errors = some errors) ∧
    (∀ j : RJob σ, (∀ k, (j.rep.step (jobIter j.rep j.st k)).2.1 = true) →
      ∀ n, repeatF n [j] errors = none) := by
  refine ⟨⟨?_, ?_⟩, fun n => by simp [repeatF], fun j hall n => ?_⟩
  · rintro ⟨n, hn⟩ j hj
    by_contra hns
    rw [repeatF_none_of_not_stops n jobs errors j hj hns] at hn
    cases hn
  · intro h
    obtain ⟨N, hN⟩ := stopsWithin_bound jobs h
    exact ⟨N + 2, repeatF_of_stopsWithin N jobs errors hN⟩
  · refine repeatF_none_of_not_stops n [j] errors j (List.mem_singleton.mpr rfl) ?_
    rintro ⟨k, hk⟩
    rw [hall k] at hk
    cases hk

/-- Witness for C7: the empty job list returns its error accumulator, a
constantly-true job never lets fuel 5 finish, and the inc-from-1 counter
job (which stops) makes the loop terminate. -/
theorem repeat_terminates_iff_every_job_stops_witness :
    repeatF 1 ([] : List (RJob Int)) ["x"] = some ["x"] ∧
    repeatF 5 [{ rep := { name := "T", stateStr := fun _ => "", step := fun s => (s, true, none) }
                 st := (0 : Int) }] [] = none :=
  ⟨(repeat_terminates_iff_every_job_stops ([] : List (RJob Int)) ["x"]).2.1 0,
   (repeat_terminates_iff_every_job_stops
      ([{ rep := { name := "T", stateStr := fun _ => "", step := fun s => (s, true, none) }
          st := (0 : Int) }] : List (RJob Int)) []).2.2
     { rep := { name := "T", stateStr := fun _ => "", step := fun s => (s, true, none) }
       st := (0 : Int) } (fun _ => rfl) 5⟩

/-- The `inc` counter job of `pkg/repeatjobs/repeat_test.go`: each
`Repeat()` call increments the count and asks to repeat again until the
count reaches 10. -/
def incRep : Repeater Int :=
  { name := "Ten"
    stateStr := fun n => toString n
    step := fun s => (s + 1, decide (s + 1 < 10), none) }

theorem roundAux_fst_eq {σ : Type} (i : Nat) (jobs : List (RJob σ)) :
    (roundAux i jobs).1 =
      (jobs.filter (fun j => (j.rep.step j.st).2.1)).map
        (fun j => { rep := j.rep, st := (j.rep.step j.st).1 }) := by
  induction jobs generalizing i with
  | nil => rfl
  | cons j rest ih =>
    have hstep : (roundAux i (j :: rest)).1 =
        (if (j.rep.step j.st).2.1 then [{ rep := j.rep, st := (j.rep.step j.st).1 }]
         else []) ++ (roundAux (i + 1) rest).1 := rfl
    rw [hstep, ih, List.filter_cons]
    by_cases hs : (j.rep.step j.st).2.1 = true
    · rw [hs]
      simp
    · simp only [Bool.not_eq_true] at hs
      rw [hs]
      simp

theorem roundAux_snd_eq {σ : Type} (i : Nat) (jobs : List (RJob σ)) :
    (roundAux i jobs).2 =
      (jobs.enumFrom i).filterMap
        (fun p => ((p.2.rep.step p.2.st).2.2).map
          (fun err => formatErr p.1 p.2.rep.name
            (p.2.rep.stateStr (p.2.rep.step p.2.st).1) err)) := by
  induction jobs generalizing i with
  | nil => rfl
  | cons j rest ih =>
    have hstep : (roundAux i (j :: rest)).2 =
        (match (j.rep.step j.st).2.2 with
         | some err => [formatErr i j.rep.name (j.rep.stateStr (j.rep.step j.st).1) err]
         | none => []) ++ (roundAux (i + 1) rest).2 := rfl
    rw [hstep, ih, List.enumFrom_cons, List.filterMap_cons]
    cases he : (j.rep.step j.st).2.2 with
    | none => simp [he]
    | some err => simp [he]

/-- C8: each round of `Repeat` invokes every current job once in list
order; the next round keeps exactly the jobs whose call returned `true`,
in order and with their new states; one formatted error entry is appended
per failing call, in order; the empty job list returns the accumulated
errors. The inc-counter job started at 1 terminates with no errors, its
9th call being the one that reaches state 10 and returns `false` — so the
job ends with state `"10"`. -/
theorem repeat_round_behavior {σ : Type} (i : Nat) (jobs : List (RJob σ))
    (errors : List String) (n : Nat) :
    ((roundAux i jobs).1 =
       (jobs.filter (fun j => (j.rep.step j.st).2.1)).map
         (fun j => { rep := j.rep, st := (j.rep.step j.st).1 }) ∧
     (roundAux i jobs).2 =
       (jobs.enumFrom i).filterMap
         (fun p => ((p.2.rep.step p.2.st).2.2).map
           (fun err => formatErr p.1 p.2.rep.name
             (p.2.rep.stateStr (p.2.rep.step p.2.st).1) err)) ∧
     repeatF (n + 1) ([] : List (RJob σ)) errors = some errors) ∧
    (repeatF 10 [{ rep := incRep, st := 1 }] [] = some [] ∧
     incRep.step (jobIter incRep 1 8) = (10, false, none) ∧
     incRep.stateStr (jobIter incRep 1 9) = "10") := by
  refine ⟨⟨roundAux_fst_eq i jobs, roundAux_snd_eq i jobs, by simp [repeatF]⟩,
    by decide, by decide, ?_⟩
  show toString (jobIter incRep 1 9) = "10"
  decide

/-! ## Reputation records (`reputation/reputation.go`,
`pkg/overlay/mocks/mock_client.go`) -/

/-- `NodeReputationRecord` of `reputation/reputation.go`: source, node name,
timestamp, and seven numeric bookkeeping fields (Go `int`, modelled as
`Int`). -/
structure NodeReputationRecord where
  source : String
  nodeName : String
  timestamp : String
  uptime : Int
  auditSuccess : Int
  auditFail : Int
  latency : Int
  amountOfDataStored : Int
  falseClaims : Int
  shardsModified : Int
deriving DecidableEq, Repr

/-- `NodeReputationRecord.auditSuccessRatio` of `reputation/reputation.go`:
`float64(auditSuccess) / float64(auditSuccess+auditFail)` with no guard on
the denominator. A nonzero denominator yields the exact quotient; a zero
denominator yields no real number (IEEE NaN or infinity), modelled as
`none`. -/
def NodeReputationRecord.auditSuccessRatio (row : NodeReputationRecord) : Option ℚ :=
  if row.auditSuccess + row.auditFail = 0 then none
  else some ((row.auditSuccess : ℚ) / ((row.auditSuccess : ℚ) + (row.auditFail : ℚ)))

/-- The `nodeReputationRecord` row of the `nodereputation` package, as its
constructor `newReputationRow` in `mock_client.go` fills it: source, node
name, timestamp, and seven numeric fields (Go `int64`, modelled as `Int`). -/
structure MockNodeReputationRecord where
  source : String
  nodeName : String
  timestamp : String
  uptime : Int
  auditSuccess : Int
  auditFail : Int
  latency : Int
  amountOfDataStored : Int
  falseClaims : Int
  shardsModified : Int
deriving DecidableEq, Repr

/-- `auditSuccessRatio` of `mock_client.go` (package `nodereputation`):
starts from `0` and only divides when `auditSuccess + auditFail > 0`. -/
def mockAuditSuccessRatio (row : MockNodeReputationRecord) : ℚ :=
  if row.auditSuccess + row.auditFail > 0 then
    (row.auditSuccess : ℚ) / ((row.auditSuccess : ℚ) + (row.auditFail : ℚ))
  else 0

/-- C9 as stated is false: at the all-zero record the `reputation.go`
method `NodeReputationRecord.auditSuccessRatio` divides zero by zero and so
does not return 0 (the guarded `mock_client.go` implementation does). -/
theorem auditSuccessRatio_zero_division_counterexample :
    ({ source := "s", nodeName := "n", timestamp := "", uptime := 0,
       auditSuccess := 0, auditFail := 0, latency := 0,
       amountOfDataStored := 0, falseClaims := 0,
       shardsModified := 0 } : NodeReputationRecord).auditSuccess = 0 ∧
    ({ source := "s", nodeName := "n", timestamp := "", uptime := 0,
       auditSuccess := 0, auditFail := 0, latency := 0,
       amountOfDataStored := 0, falseClaims := 0,
       shardsModified := 0 } : NodeReputationRecord).auditFail = 0 ∧
    NodeReputationRecord.auditSuccessRatio
      { source := "s", nodeName := "n", timestamp := "", uptime := 0,
        auditSuccess := 0, auditFail := 0, latency := 0,
        amountOfDataStored := 0, falseClaims := 0, shardsModified := 0 } ≠ some 0 ∧
    mockAuditSuccessRatio
      { source := "s", nodeName := "n", timestamp := "", uptime := 0,
        auditSuccess := 0, auditFail := 0, latency := 0,
        amountOfDataStored := 0, falseClaims := 0, shardsModified := 0 } = 0 := by
  refine ⟨rfl, rfl, ?_, rfl⟩
  intro h
  simp [NodeReputationRecord.auditSuccessRatio] at h

/-- C9 amended: the guarded `mock_client.go` implementation is total — it
returns the quotient when `auditSuccess + auditFail > 0` and `0` when both
counters are zero — while the `reputation.go` method returns the quotient
only for a nonzero total and has no real value (zero division) when both
counters are zero. -/
theorem auditSuccessRatio_guarded_vs_method
    (r : MockNodeReputationRecord) (row : NodeReputationRecord) :
    (r.auditSuccess + r.auditFail > 0 →
      mockAuditSuccessRatio r
        = (r.auditSuccess : ℚ) / ((r.auditSuccess : ℚ) + (r.auditFail : ℚ))) ∧
    (r.auditSuccess = 0 → r.auditFail = 0 → mockAuditSuccessRatio r = 0) ∧
    (row.auditSuccess + row.auditFail ≠ 0 →
      row.auditSuccessRatio
        = some ((row.auditSuccess : ℚ) / ((row.auditSuccess : ℚ) + (row.auditFail : ℚ)))) ∧
    (row.auditSuccess = 0 → row.auditFail = 0 → row.auditSuccessRatio = none) := by
  refine ⟨fun h => ?_, fun h1 h2 => ?_, fun h => ?_, fun h1 h2 => ?_⟩
  · rw [mockAuditSuccessRatio, if_pos h]
  · rw [mockAuditSuccessRatio, if_neg (by rw [h1, h2]; decide)]
  · rw [NodeReputationRecord.auditSuccessRatio, if_neg h]
  · rw [NodeReputationRecord.auditSuccessRatio, if_pos (by rw [h1, h2]; decide)]

/-- Witness for the amended C9 at concrete records: 3 successes and 1
failure give ratio 3/4 under the guarded implementation; the all-zero
record gives 0 there and no value from the unguarded method. -/
theorem auditSuccessRatio_guarded_vs_method_witness :
    mockAuditSuccessRatio
      { source := "s", nodeName := "n", timestamp := "", uptime := 0,
        auditSuccess := 3, auditFail := 1, latency := 0,
        amountOfDataStored := 0, falseClaims := 0, shardsModified := 0 }
      = (3 : ℚ) / ((3 : ℚ) + (1 : ℚ)) ∧
    mockAuditSuccessRatio
      { source := "s", nodeName := "n", timestamp := "", uptime := 0,
        auditSuccess := 0, auditFail := 0, latency := 0,
        amountOfDataStored := 0, falseClaims := 0, shardsModified := 0 } = 0 ∧
    NodeReputationRecord.auditSuccessRatio
      { source := "s", nodeName := "n", timestamp := "", uptime := 0,
        auditSuccess := 0, auditFail := 0, latency := 0,
        amountOfDataStored := 0, falseClaims := 0, shardsModified := 0 } = none := by
  refine ⟨?_, ?_, ?_⟩
  · exact (auditSuccessRatio_guarded_vs_method
      { source := "s", nodeName := "n", timestamp := "", uptime := 0,
        auditSuccess := 3, auditFail := 1, latency := 0,
        amountOfDataStored := 0, falseClaims := 0, shardsModified := 0 }
      { source := "s", nodeName := "n", timestamp := "", uptime := 0,
        auditSuccess := 0, auditFail := 0, latency := 0,
        amountOfDataStored := 0, falseClaims := 0,
        shardsModified := 0 }).1 (by decide)
  · exact (auditSuccessRatio_guarded_vs_method
      { source := "s", nodeName := "n", timestamp := "", uptime := 0,
        auditSuccess := 0, auditFail := 0, latency := 0,
        amountOfDataStored := 0, falseClaims := 0, shardsModified := 0 }
      { source := "s", nodeName := "n", timestamp := "", uptime := 0,
        auditSuccess := 0, auditFail := 0, latency := 0,
        amountOfDataStored := 0, falseClaims := 0,
        shardsModified := 0 }).2.1 rfl rfl
  · exact (auditSuccessRatio_guarded_vs_method
      { source := "s", nodeName := "n", timestamp := "", uptime := 0,
        auditSuccess := 0, auditFail := 0, latency := 0,
        amountOfDataStored := 0, falseClaims := 0, shardsModified := 0 }
      { source := "s", nodeName := "n", timestamp := "", uptime := 0,
        auditSuccess := 0, auditFail := 0, latency := 0,
        amountOfDataStored := 0, falseClaims := 0,
        shardsModified := 0 }).2.2.2 rfl rfl

/-- The `mutOp` sum type shared by both packages: `increment`, `decrement`,
`overWrite`. -/
inductive MutOp
  | increment
  | decrement
  | overWrite
deriving DecidableEq, Repr

/-- `performOp` (identical in `reputation.go` and `mock_client.go`): apply
the mutation operation to a value with the scalar. -/
def performOp (op : MutOp) (value scalar : Int) : Int :=
  match op with
  | .increment => value + scalar
  | .decrement => value - scalar
  | .overWrite => scalar

/-- The `column` sum type of `reputation/reputation.go`: the seven numeric
columns. -/
inductive RColumn
  | uptime
  | auditSuccess
  | auditFail
  | latency
  | amountOfDataStored
  | falseClaims
  | shardsModified
deriving DecidableEq, Repr

/-- The numeric field a `reputation.go` column selects. -/
def RColumn.sel : RColumn → NodeReputationRecord → Int
  | .uptime => NodeReputationRecord.uptime
  | .auditSuccess => NodeReputationRecord.auditSuccess
  | .auditFail => NodeReputationRecord.auditFail
  | .latency => NodeReputationRecord.latency
  | .amountOfDataStored => NodeReputationRecord.amountOfDataStored
  | .falseClaims => NodeReputationRecord.falseClaims
  | .shardsModified => NodeReputationRecord.shardsModified

/-- `NodeReputationRecord.morphism` of `reputation/reputation.go`: the row
is passed by value; the switch updates the one field its column case names
and the result is returned as a new record. -/
def NodeReputationRecord.morphism (row : NodeReputationRecord) (col : RColumn)
    (op : MutOp) (scalar : Int) : NodeReputationRecord :=
  match col with
  | .uptime => { row with uptime := performOp op row.uptime scalar }
  | .auditSuccess => { row with auditSuccess := performOp op row.auditSuccess scalar }
  | .auditFail => { row with auditFail := performOp op row.auditFail scalar }
  | .latency => { row with latency := performOp op row.latency scalar }
  | .amountOfDataStored =>
    { row with amountOfDataStored := performOp op row.amountOfDataStored scalar }
  | .falseClaims => { row with falseClaims := performOp op row.falseClaims scalar }
  | .shardsModified => { row with shardsModified := performOp op row.shardsModified scalar }

/-- The `sqlite.Column` sum type used by `mock_client.go`: the seven
numeric columns plus the `nodeName` and `lastseen` columns, which the
mocks `morphism` has no case for. -/
inductive SColumn
  | nodeName
  | lastseen
  | uptime
  | auditSuccess
  | auditFail
  | latency
  | amountOfDataStored
  | falseClaims
  | shardsModified
deriving DecidableEq, Repr

/-- The numeric field a `sqlite.Column` selects (`none` for the two
non-numeric columns). -/
def SColumn.sel : SColumn → MockNodeReputationRecord → Option Int
  | .nodeName => fun _ => none
  | .lastseen => fun _ => none
  | .uptime => fun r => some r.uptime
  | .auditSuccess => fun r => some r.auditSuccess
  | .auditFail => fun r => some r.auditFail
  | .latency => fun r => some r.latency
  | .amountOfDataStored => fun r => some r.amountOfDataStored
  | .falseClaims => fun r => some r.falseClaims
  | .shardsModified => fun r => some r.shardsModified

/-- `morphism` of `mock_client.go` (package `nodereputation`): same switch
over the seven numeric columns; a column without a case (nodeName,
lastseen) leaves the row unchanged. -/
def mockMorphism (row : MockNodeReputationRecord) (col : SColumn) (op : MutOp)
    (scalar : Int) : MockNodeReputationRecord :=
  match col with
  | .uptime => { row with uptime := performOp op row.uptime scalar }
  | .auditSuccess => { row with auditSuccess := performOp op row.auditSuccess scalar }
  | .auditFail => { row with auditFail := performOp op row.auditFail scalar }
  | .latency => { row with latency := performOp op row.latency scalar }
  | .amountOfDataStored =>
    { row with amountOfDataStored := performOp op row.amountOfDataStored scalar }
  | .falseClaims => { row with falseClaims := performOp op row.falseClaims scalar }
  | .shardsModified => { row with shardsModified := performOp op row.shardsModified scalar }
  | _ => row

/-- C10: in both implementations, `morphism` is a pure map on the record —
the source, node name and timestamp are always unchanged, and every column
other than the selected one selects the same value after as before (the
input itself is immutable: Go passes the record by value and the result is
a fresh record). In the mocks version a column without a switch case
changes nothing at all. -/
theorem morphism_frame (row : NodeReputationRecord) (col : RColumn) (op : MutOp)
    (scalar : Int) (mrow : MockNodeReputationRecord) (mcol : SColumn) :
    ((row.morphism col op scalar).source = row.source ∧
     (row.morphism col op scalar).nodeName = row.nodeName ∧
     (row.morphism col op scalar).timestamp = row.timestamp ∧
     ∀ c : RColumn, c ≠ col → c.sel (row.morphism col op scalar) = c.sel row) ∧
    ((mockMorphism mrow mcol op scalar).source = mrow.source ∧
     (mockMorphism mrow mcol op scalar).nodeName = mrow.nodeName ∧
     (mockMorphism mrow mcol op scalar).timestamp = mrow.timestamp ∧
     (∀ c : SColumn, c ≠ mcol → c.sel (mockMorphism mrow mcol op scalar) = c.sel mrow) ∧
     (mcol = .nodeName ∨ mcol = .lastseen → mockMorphism mrow mcol op scalar = mrow)) := by
  refine ⟨⟨?_, ?_, ?_, fun c hc => ?_⟩, ?_, ?_, ?_, fun c hc => ?_, fun hm => ?_⟩
  · cases col <;> rfl
  · cases col <;> rfl
  · cases col <;> rfl
  · cases col <;> cases c <;> first | exact absurd rfl hc | rfl
  · cases mcol <;> rfl
  · cases mcol <;> rfl
  · cases mcol <;> rfl
  · cases mcol <;> cases c <;> first | exact absurd rfl hc | rfl
  · rcases hm with rfl | rfl <;> rfl

/-- Witness for C10 at a concrete record, column and operation: an
increment on uptime leaves latency (and the identifying strings)
untouched in both implementations. -/
theorem morphism_frame_witness :
    (NodeReputationRecord.morphism
      { source := "s", nodeName := "n", timestamp := "t", uptime := 1,
        auditSuccess := 2, auditFail := 3, latency := 4,
        amountOfDataStored := 5, falseClaims := 6, shardsModified := 7 }
      .uptime .increment 10).nodeName = "n" ∧
    RColumn.latency.sel (NodeReputationRecord.morphism
      { source := "s", nodeName := "n", timestamp := "t", uptime := 1,
        auditSuccess := 2, auditFail := 3, latency := 4,
        amountOfDataStored := 5, falseClaims := 6, shardsModified := 7 }
      .uptime .increment 10) = 4 ∧
    mockMorphism
      { source := "s", nodeName := "n", timestamp := "t", uptime := 1,
        auditSuccess := 2, auditFail := 3, latency := 4,
        amountOfDataStored := 5, falseClaims := 6, shardsModified := 7 }
      .nodeName .increment 10
      = { source := "s", nodeName := "n", timestamp := "t", uptime := 1,
          auditSuccess := 2, auditFail := 3, latency := 4,
          amountOfDataStored := 5, falseClaims := 6, shardsModified := 7 } := by
  obtain ⟨⟨_, hname, _, hsel⟩, _⟩ :=
    morphism_frame
      { source := "s", nodeName := "n", timestamp := "t", uptime := 1,
        auditSuccess := 2, auditFail := 3, latency := 4,
        amountOfDataStored := 5, falseClaims := 6, shardsModified := 7 }
      .uptime .increment 10
      { source := "s", nodeName := "n", timestamp := "t", uptime := 1,
        auditSuccess := 2, auditFail := 3, latency := 4,
        amountOfDataStored := 5, falseClaims := 6, shardsModified := 7 }
      .uptime
  obtain ⟨_, hunchanged⟩ :=
    (morphism_frame
      { source := "s", nodeName := "n", timestamp := "t", uptime := 1,
        auditSuccess := 2, auditFail := 3, latency := 4,
        amountOfDataStored := 5, falseClaims := 6, shardsModified := 7 }
      .uptime .increment 10
      { source := "s", nodeName := "n", timestamp := "t", uptime := 1,
        auditSuccess := 2, auditFail := 3, latency := 4,
        amountOfDataStored := 5, falseClaims := 6, shardsModified := 7 }
      .nodeName).2.2.2
  exact ⟨hname, hsel .latency (by decide), hunchanged.2 (Or.inl rfl)⟩
